import Mathlib

/-!
# Grid Board firmware: coordination layer of `main/main.cpp`

A shallow embedding of the sound-effect dispatcher (`card_flip_sfx_task`), of the
sound signal queue operations (`start_sfx_task`, `start_card_flip_sound_task`,
`stop_card_flip_sound_task`), of the BLE data handler (`on_data_received`) and of the
start-up path (`ui_gridboard_animation_start`).

Conventions.

* Bytes (`uint8_t`, `char`) are natural numbers; a text (`std::string`) is the list of
  its bytes.
* The 64-bit signed timestamps are integers. A clock reading is the quotient of a
  microsecond counter by 1000, so the one subtraction the dispatcher performs stays
  far inside the 64-bit range (`sfx_elapsed_in_int64`).
* Calls to collaborators that are not part of `main.cpp` (the audio write, the
  animation engine, the display lock, the logger, the scheduler delay) are recorded as
  events; the values they return are inputs of the model.
* A FreeRTOS queue is its capacity together with the list of queued bytes, oldest
  first. Only the two calls used by the source are modelled: a send that does not wait
  and a receive.
-/

namespace GridBoard

/-! ## Sound dispatcher -/

/-- Value of `exit_msg` sent by `stop_card_flip_sound_task`: the Idle signal. -/
def SFX_IDLE : Nat := 0

/-- Value of `msg` sent by `start_card_flip_sound_task`: the Trigger signal. -/
def SFX_TRIGGER : Nat := 1

/-- Local constant `MIN_SFX_INTERVAL_MS` of `card_flip_sfx_task`. -/
def MIN_SFX_INTERVAL_MS : Int := 33

/-- Last argument of the `bsp_extra_i2s_write` call, in milliseconds. -/
def SFX_WRITE_TIMEOUT_MS : Nat := 200

/-- The buffers the dispatcher can hand to the audio write; the source has one. -/
inductive AudioClip where
  | card_pcm
deriving DecidableEq, Repr

/-- What one call of `bsp_extra_i2s_write` gives back: its status code and the value it
stores through the `bytes_written` pointer. -/
structure I2sResult where
  status : Int
  bytes_written : Nat
deriving DecidableEq, Repr

/-- One call of `bsp_extra_i2s_write`, tagged with the clock reading `now` of the loop
iteration that made it. -/
structure PlaybackRequest where
  at_ms : Int
  clip : AudioClip
  size : Nat
  timeout_ms : Nat
deriving DecidableEq, Repr

/-- The variables of `card_flip_sfx_task` that survive a loop iteration. -/
structure SfxState where
  last_sfx_time : Int
  bytes_written : Nat
  active : Bool
deriving DecidableEq, Repr

/-- Values of the variables when the task enters its loop. -/
def sfx_init : SfxState :=
  { last_sfx_time := 0, bytes_written := 0, active := true }

/-- What one loop iteration reads from outside: the byte received from the queue, the
value of `esp_timer_get_time()` (microseconds) and the outcome of the audio write,
should the iteration perform one. -/
structure SfxInput where
  msg : Nat
  time_us : Int
  wr : I2sResult
deriving DecidableEq, Repr

/-- The expression `esp_timer_get_time() / 1000`: C division truncates. -/
def now_ms (time_us : Int) : Int := Int.tdiv time_us 1000

/-- Body of the `while (1)` loop of `card_flip_sfx_task` once a byte has been received:
the new state and the audio writes performed. -/
def card_flip_sfx_step (pcm_size : Nat) (s : SfxState) (i : SfxInput) :
    SfxState × List PlaybackRequest :=
  if i.msg = 0 then
    ({ s with active := false }, [])
  else
    let now := now_ms i.time_us
    if now - s.last_sfx_time ≥ MIN_SFX_INTERVAL_MS then
      ({ last_sfx_time := now, bytes_written := i.wr.bytes_written, active := true },
        [{ at_ms := now, clip := AudioClip.card_pcm, size := pcm_size,
           timeout_ms := SFX_WRITE_TIMEOUT_MS }])
    else
      ({ s with active := true }, [])

/-- The loop of `card_flip_sfx_task` over the successive receptions: final state and all
audio writes, in the order they were made. -/
def card_flip_sfx_task (pcm_size : Nat) : SfxState → List SfxInput →
    SfxState × List PlaybackRequest
  | s, [] => (s, [])
  | s, i :: rest =>
    ((card_flip_sfx_task pcm_size (card_flip_sfx_step pcm_size s i).1 rest).1,
      (card_flip_sfx_step pcm_size s i).2 ++
        (card_flip_sfx_task pcm_size (card_flip_sfx_step pcm_size s i).1 rest).2)

/-- The part of an input that does not come from the audio write. -/
def SfxInput.signal (i : SfxInput) : Nat × Int := (i.msg, i.time_us)

/-- The part of the dispatcher state the specification speaks of. -/
def SfxState.core (s : SfxState) : Int × Bool := (s.last_sfx_time, s.active)

/-! ## Sound signal queue -/

/-- A FreeRTOS queue of bytes: capacity and queued items, oldest first. -/
structure Queue where
  uxLength : Nat
  items : List Nat
deriving DecidableEq, Repr

/-- The call `xQueueCreate(n, sizeof(uint8_t))`. -/
def xQueueCreate (n : Nat) : Queue := { uxLength := n, items := [] }

/-- The call `xQueueSend(q, &msg, 0)`: with a zero wait the call returns at once, with
`pdTRUE` and the item at the tail when there is room, with the queue as it was and
`errQUEUE_FULL` otherwise. -/
def xQueueSend (q : Queue) (msg : Nat) : Bool × Queue :=
  if q.items.length < q.uxLength then
    (true, { q with items := q.items ++ [msg] })
  else
    (false, q)

/-- The call `xQueueReceive(q, &msg, ...)` on a queue: the oldest item, if any, and the
queue without it. -/
def xQueueReceive (q : Queue) : Option Nat × Queue :=
  match q.items with
  | [] => (none, q)
  | m :: rest => (some m, { q with items := rest })

/-- The successive receptions of the flush loop, on the list of queued items: each
successful receive removes the oldest item, the loop ends when none is left. -/
def flush_items : List Nat → List Nat
  | [] => []
  | _ :: rest => flush_items rest

/-- The flush loop `while (xQueueReceive(sfx_queue, &dummy, 0) == pdTRUE);`
(see `flush_queue_unfold` for its reading as a loop over `xQueueReceive`). -/
def flush_queue (q : Queue) : Queue :=
  { q with items := flush_items q.items }

/-- The function `start_sfx_task`, on the global `sfx_queue` (`none` is `nullptr`). -/
def start_sfx_task (sfx_queue : Option Queue) : Option Queue :=
  match sfx_queue with
  | none => some (xQueueCreate 8)
  | some q => some q

/-- The function `start_card_flip_sound_task`, on the global `sfx_queue`. -/
def start_card_flip_sound_task (sfx_queue : Option Queue) : Option Queue :=
  match sfx_queue with
  | some q => some (xQueueSend q SFX_TRIGGER).2
  | none => none

/-- The function `stop_card_flip_sound_task`, on the global `sfx_queue`. -/
def stop_card_flip_sound_task (sfx_queue : Option Queue) : Option Queue :=
  match sfx_queue with
  | some q => some (xQueueSend (flush_queue q) SFX_IDLE).2
  | none => none

/-- Dispatcher and queue together. -/
structure SfxSystem where
  sfx_queue : Option Queue
  task : SfxState
  played : List PlaybackRequest
deriving DecidableEq, Repr

/-- One turn of the dispatcher on the shared queue: it takes the oldest byte and runs
the loop body on it; on an empty (or absent) queue it stays blocked in
`xQueueReceive(..., portMAX_DELAY)` and nothing changes. -/
def sfx_dispatch (pcm_size : Nat) (w : SfxSystem) (time_us : Int) (wr : I2sResult) :
    SfxSystem :=
  match w.sfx_queue with
  | none => w
  | some q =>
    match xQueueReceive q with
    | (none, _) => w
    | (some msg, q1) =>
      { sfx_queue := some q1,
        task := (card_flip_sfx_step pcm_size w.task ⟨msg, time_us, wr⟩).1,
        played := w.played ++ (card_flip_sfx_step pcm_size w.task ⟨msg, time_us, wr⟩).2 }

/-- The operations that touch the sound signal queue after its creation. -/
inductive SfxOp where
  | start
  | stop
  | receive (time_us : Int) (wr : I2sResult)
deriving DecidableEq, Repr

/-- Effect of one queue operation. -/
def sfx_apply (pcm_size : Nat) (w : SfxSystem) : SfxOp → SfxSystem
  | SfxOp.start => { w with sfx_queue := start_card_flip_sound_task w.sfx_queue }
  | SfxOp.stop => { w with sfx_queue := stop_card_flip_sound_task w.sfx_queue }
  | SfxOp.receive t wr => sfx_dispatch pcm_size w t wr

/-- Effect of a sequence of queue operations. -/
def sfx_run (pcm_size : Nat) (w : SfxSystem) (ops : List SfxOp) : SfxSystem :=
  ops.foldl (sfx_apply pcm_size) w

/-- The system right after `start_sfx_task()` in `app_main`. -/
def sfx_boot : SfxSystem :=
  { sfx_queue := start_sfx_task none, task := sfx_init, played := [] }

/-- Bytes obtained by receiving until the receive fails, in the order received, on the
list of queued items. -/
def receive_items : List Nat → List Nat
  | [] => []
  | m :: rest => m :: receive_items rest

/-- Receive from the queue until it is empty, listing the bytes in the order received
(see `receive_all_unfold` for its reading as a loop over `xQueueReceive`). -/
def receive_all (q : Queue) : List Nat := receive_items q.items

/-- Send the bytes one after the other, none of the sends waiting. -/
def send_all (q : Queue) (msgs : List Nat) : Queue :=
  msgs.foldl (fun q m => (xQueueSend q m).2) q

/-! ## BLE data handler and start-up path -/

/-- Calls made by `on_data_received`, `ui_gridboard_animation_start` and the start-up
timer callback to code outside `main.cpp`, with the arguments that matter. -/
inductive Event where
  | log_received (text : List Nat) (len : Nat)
  | is_animation_running (result : Bool)
  | vTaskDelay (ms : Nat)
  | bsp_display_lock (timeout_ms : Nat)
  | process_text_and_animate (text : List Nat)
  | bsp_display_unlock
  | set_sound_callback
  | board_init
  | log_target_empty
  | lv_timer_create (period_ms : Nat)
  | lv_timer_del
deriving DecidableEq, Repr

/-- The global `target_text`, the number of times the calling context holds the display
lock, and the calls made so far. -/
structure AppState where
  target_text : List Nat
  display_lock : Nat
  events : List Event
deriving DecidableEq, Repr

/-- The loop `for (int i = 0; i < len; i++) received_text += (char)data[i];` with
`remaining = len - i` iterations still to run. The cast keeps the byte. A read past the
end of the list (past the buffer, in C) is given the value 0. -/
def decode_loop (data : List Nat) : Nat → Nat → List Nat → List Nat
  | 0, _, received_text => received_text
  | remaining + 1, i, received_text =>
    decode_loop data remaining (i + 1) (received_text ++ [data.getD i 0])

/-- The string `received_text` built by `on_data_received` from `data` and `len`. -/
def decode_text (data : List Nat) (len : Nat) : List Nat :=
  decode_loop data len 0 []

/-- The loop `while (grid_board.is_animation_running()) vTaskDelay(pdMS_TO_TICKS(100));`
where the list gives the successive results of `is_animation_running()`. The calls made
are returned; `none` when the list ends before a poll reads `false`, that is when the
loop has not been seen to end. -/
def wait_animation : List Bool → Option (List Event)
  | [] => none
  | false :: _ => some [Event.is_animation_running false]
  | true :: rest =>
    (wait_animation rest).map
      (fun evs => Event.is_animation_running true :: Event.vTaskDelay 100 :: evs)

/-- First part of `on_data_received`: decode, log, overwrite `target_text`. -/
def on_data_received_store (st : AppState) (data : List Nat) (len : Nat) : AppState :=
  { st with
    target_text := decode_text data len,
    events := st.events ++ [Event.log_received (decode_text data len) len] }

/-- Last part of `on_data_received`: lock, animate the current `target_text`, unlock. -/
def on_data_received_animate (st : AppState) : AppState :=
  { st with
    display_lock := (st.display_lock + 1) - 1,
    events := st.events ++
      [Event.bsp_display_lock 0, Event.process_text_and_animate st.target_text,
        Event.bsp_display_unlock] }

/-- The function `on_data_received(data, len)`; `polls` gives the successive results of
`is_animation_running()`. -/
def on_data_received (st : AppState) (data : List Nat) (len : Nat) (polls : List Bool) :
    Option AppState :=
  match wait_animation polls with
  | none => none
  | some evs =>
    some (on_data_received_animate
      { on_data_received_store st data len with
        events := (on_data_received_store st data len).events ++ evs })

/-- The function `ui_gridboard_animation_start`. -/
def ui_gridboard_animation_start (st : AppState) : AppState :=
  if st.target_text.isEmpty then
    { st with events := st.events ++
        [Event.set_sound_callback, Event.board_init, Event.log_target_empty] }
  else
    { st with events := st.events ++
        [Event.set_sound_callback, Event.board_init, Event.lv_timer_create 5000] }

/-- The callback given to `lv_timer_create` by `ui_gridboard_animation_start`. -/
def startup_timer_cb (st : AppState) : AppState :=
  { st with events := st.events ++
      [Event.lv_timer_del, Event.process_text_and_animate st.target_text] }

/-- The texts the animation engine was called with, in call order. -/
def animated : List Event → List (List Nat)
  | [] => []
  | Event.process_text_and_animate text :: rest => text :: animated rest
  | _ :: rest => animated rest

/-- The number of times the display lock was taken. -/
def lock_count : List Event → Nat
  | [] => 0
  | Event.bsp_display_lock _ :: rest => lock_count rest + 1
  | _ :: rest => lock_count rest

/-- The durations of the `vTaskDelay` calls, in call order. -/
def delays : List Event → List Nat
  | [] => []
  | Event.vTaskDelay ms :: rest => ms :: delays rest
  | _ :: rest => delays rest

/-- The calls of the wait loop when the first `k` polls read `true` and the next one
reads `false`. -/
def wait_events : Nat → List Event
  | 0 => [Event.is_animation_running false]
  | k + 1 => Event.is_animation_running true :: Event.vTaskDelay 100 :: wait_events k

/-! ## Overlapping calls of the data handler

`target_text` is a global: a second call of `on_data_received` that starts while a first
one is still in its wait loop overwrites the text the first one will animate. The two
calls are followed step by step; a schedule says whose turn it is. -/

/-- The calls of `k` passes through the wait loop whose poll reads `true`. -/
def busy_events : Nat → List Event
  | 0 => []
  | k + 1 => Event.is_animation_running true :: Event.vTaskDelay 100 :: busy_events k

/-- Where a call of `on_data_received` stands: not started, in the wait loop, past the
wait loop (its last poll read `false`), returned. -/
inductive HandlerPc where
  | entry
  | waiting
  | ready
  | returned
deriving DecidableEq, Repr

/-- One call of `on_data_received`: its arguments and where it stands. -/
structure HandlerCall where
  data : List Nat
  len : Nat
  pc : HandlerPc
deriving DecidableEq, Repr

/-- One step of a call of `on_data_received`. From `entry`: decode, log, overwrite
`target_text`. From `waiting`: one poll, `running` being what it reads, followed by the
sleep when it reads `true`. From `ready`: lock, `process_text_and_animate(target_text)`
on the global as it is then, unlock (the section under the display lock is one step). -/
def handler_step (st : AppState) (c : HandlerCall) (running : Bool) :
    AppState × HandlerCall :=
  match c.pc with
  | HandlerPc.entry =>
    (on_data_received_store st c.data c.len, { c with pc := HandlerPc.waiting })
  | HandlerPc.waiting =>
    if running then
      ({ st with events := st.events ++
          [Event.is_animation_running true, Event.vTaskDelay 100] }, c)
    else
      ({ st with events := st.events ++ [Event.is_animation_running false] },
        { c with pc := HandlerPc.ready })
  | HandlerPc.ready => (on_data_received_animate st, { c with pc := HandlerPc.returned })
  | HandlerPc.returned => (st, c)

/-- Which of the two calls takes a step. -/
inductive Caller where
  | first
  | second
deriving DecidableEq, Repr

/-- One entry of a schedule: who steps, and what the poll reads if the step is a poll. -/
structure Turn where
  who : Caller
  running : Bool
deriving DecidableEq, Repr

/-- Two calls of `on_data_received` over the shared state. -/
structure TwoCalls where
  app : AppState
  first : HandlerCall
  second : HandlerCall
deriving DecidableEq, Repr

/-- The call named by the turn takes one step. -/
def two_calls_step (w : TwoCalls) (t : Turn) : TwoCalls :=
  match t.who with
  | Caller.first =>
    { w with app := (handler_step w.app w.first t.running).1,
             first := (handler_step w.app w.first t.running).2 }
  | Caller.second =>
    { w with app := (handler_step w.app w.second t.running).1,
             second := (handler_step w.app w.second t.running).2 }

/-- The two calls run along a schedule. -/
def two_calls_run (w : TwoCalls) (sched : List Turn) : TwoCalls :=
  sched.foldl two_calls_step w

/-- Ten Trigger signals received at 1000 ms, 1005 ms, ..., 1045 ms, each audio write
reporting success. -/
def ten_triggers : List SfxInput :=
  (List.range 10).map
    (fun k => { msg := SFX_TRIGGER, time_us := 1000000 + 5000 * (k : Int),
                wr := { status := 0, bytes_written := 4096 } })

/-- The bytes of the text "HELLO". -/
def hello : List Nat := [72, 69, 76, 76, 79]

/-- A Trigger received at 40 ms whose audio write succeeds. -/
def trigger_write_ok : SfxInput :=
  { msg := SFX_TRIGGER, time_us := 40000, wr := { status := 0, bytes_written := 4096 } }

/-- The same Trigger, the audio write failing and writing nothing. -/
def trigger_write_failed : SfxInput :=
  { msg := SFX_TRIGGER, time_us := 40000, wr := { status := -1, bytes_written := 0 } }

/-! ## Basic facts on the queue model -/

theorem flush_items_eq (l : List Nat) : flush_items l = [] := by
  induction l with
  | nil => rfl
  | cons _ _ ih => simpa [flush_items] using ih

theorem flush_queue_unfold (q : Queue) :
    flush_queue q =
      match xQueueReceive q with
      | (some _, q1) => flush_queue q1
      | (none, _) => q := by
  cases q with
  | mk n items =>
    cases items with
    | nil => simp [flush_queue, xQueueReceive, flush_items]
    | cons m rest => simp [flush_queue, xQueueReceive, flush_items]

theorem receive_items_eq (l : List Nat) : receive_items l = l := by
  induction l with
  | nil => rfl
  | cons _ _ ih => simp [receive_items, ih]

theorem receive_all_unfold (q : Queue) :
    receive_all q =
      match xQueueReceive q with
      | (some m, q1) => m :: receive_all q1
      | (none, _) => [] := by
  cases q with
  | mk n items =>
    cases items with
    | nil => simp [receive_all, xQueueReceive, receive_items]
    | cons m rest => simp [receive_all, xQueueReceive, receive_items]

theorem send_all_items (msgs : List Nat) :
    ∀ q : Queue, send_all q msgs =
      { q with items := q.items ++ msgs.take (q.uxLength - q.items.length) } := by
  induction msgs with
  | nil => intro q; simp [send_all]
  | cons m rest ih =>
    intro q
    have hstep : send_all q (m :: rest) = send_all (xQueueSend q m).2 rest := by
      simp [send_all]
    rw [hstep]
    by_cases hlt : q.items.length < q.uxLength
    · have hs : (xQueueSend q m).2 = { q with items := q.items ++ [m] } := by
        simp [xQueueSend, hlt]
      rw [hs, ih]
      obtain ⟨d, hd⟩ : ∃ d, q.uxLength - q.items.length = d + 1 :=
        ⟨q.uxLength - q.items.length - 1, by omega⟩
      have hd2 : q.uxLength - (q.items.length + 1) = d := by omega
      simp [hd, hd2]
    · have hs : (xQueueSend q m).2 = q := by simp [xQueueSend, hlt]
      rw [hs, ih]
      have hz : q.uxLength - q.items.length = 0 := by omega
      simp [hz]

/-! ## Basic facts on the dispatcher -/

theorem sfx_step_idle (pcm_size : Nat) (s : SfxState) (time_us : Int) (wr : I2sResult) :
    card_flip_sfx_step pcm_size s ⟨0, time_us, wr⟩ = ({ s with active := false }, []) := by
  simp [card_flip_sfx_step]

theorem sfx_step_played_le_one (pcm_size : Nat) (s : SfxState) (i : SfxInput) :
    (card_flip_sfx_step pcm_size s i).2.length ≤ 1 := by
  unfold card_flip_sfx_step
  split
  · simp
  · simp only []
    split <;> simp

theorem sfx_step_played_spaced (pcm_size : Nat) (s : SfxState) (i : SfxInput) :
    ∀ r ∈ (card_flip_sfx_step pcm_size s i).2,
      s.last_sfx_time + 33 ≤ r.at_ms ∧ r.at_ms = now_ms i.time_us ∧
        (card_flip_sfx_step pcm_size s i).1.last_sfx_time = r.at_ms := by
  intro r hr
  unfold card_flip_sfx_step at hr ⊢
  by_cases h0 : i.msg = 0
  · simp [h0] at hr
  · by_cases h1 : now_ms i.time_us - s.last_sfx_time ≥ MIN_SFX_INTERVAL_MS
    · simp only [h0, h1, if_true, if_false, List.mem_singleton] at hr ⊢
      subst hr
      simp only [MIN_SFX_INTERVAL_MS] at h1
      refine ⟨?_, rfl, rfl⟩
      show s.last_sfx_time + 33 ≤ now_ms i.time_us
      omega
    · simp [h0, h1] at hr

theorem sfx_step_last_mono (pcm_size : Nat) (s : SfxState) (i : SfxInput) :
    (card_flip_sfx_step pcm_size s i).2 = [] →
      (card_flip_sfx_step pcm_size s i).1.last_sfx_time = s.last_sfx_time := by
  unfold card_flip_sfx_step
  by_cases h0 : i.msg = 0
  · simp [h0]
  · by_cases h1 : now_ms i.time_us - s.last_sfx_time ≥ MIN_SFX_INTERVAL_MS
    · simp [h0, h1]
    · simp [h0, h1]

theorem sfx_task_played_spaced (pcm_size : Nat) (inputs : List SfxInput) :
    ∀ s : SfxState,
      List.Pairwise (fun a b : PlaybackRequest => a.at_ms + 33 ≤ b.at_ms)
          (card_flip_sfx_task pcm_size s inputs).2 ∧
        ∀ r ∈ (card_flip_sfx_task pcm_size s inputs).2, s.last_sfx_time + 33 ≤ r.at_ms := by
  induction inputs with
  | nil => intro s; simp [card_flip_sfx_task]
  | cons i rest ih =>
    intro s
    obtain ⟨ihp, ihb⟩ := ih (card_flip_sfx_step pcm_size s i).1
    have hle := sfx_step_played_le_one pcm_size s i
    have hsp := sfx_step_played_spaced pcm_size s i
    simp only [card_flip_sfx_task]
    cases hout : (card_flip_sfx_step pcm_size s i).2 with
    | nil =>
      have hl := sfx_step_last_mono pcm_size s i hout
      rw [hl] at ihb
      simpa using ⟨ihp, ihb⟩
    | cons r tl =>
      have htl : tl = [] := by
        rw [hout] at hle
        cases tl with
        | nil => rfl
        | cons _ _ => simp at hle
      subst htl
      obtain ⟨h1, _, h3⟩ := hsp r (by rw [hout]; simp)
      rw [h3] at ihb
      refine ⟨?_, ?_⟩
      · simp only [List.singleton_append, List.pairwise_cons]
        exact ⟨ihb, ihp⟩
      · intro r1 hr1
        simp only [List.singleton_append, List.mem_cons] at hr1
        rcases hr1 with rfl | hr1
        · exact h1
        · have := ihb r1 hr1
          omega

theorem sfx_task_played_from_inputs (pcm_size : Nat) (inputs : List SfxInput) :
    ∀ s : SfxState, ∀ r ∈ (card_flip_sfx_task pcm_size s inputs).2,
      ∃ i ∈ inputs, r.at_ms = now_ms i.time_us := by
  induction inputs with
  | nil => intro s r hr; simp [card_flip_sfx_task] at hr
  | cons i rest ih =>
    intro s r hr
    simp only [card_flip_sfx_task, List.mem_append] at hr
    rcases hr with hr | hr
    · exact ⟨i, by simp, (sfx_step_played_spaced pcm_size s i r hr).2.1⟩
    · obtain ⟨j, hj, hjr⟩ := ih _ r hr
      exact ⟨j, by simp [hj], hjr⟩

theorem spaced_window_le_one (l : List PlaybackRequest) (w : Int)
    (hp : List.Pairwise (fun a b : PlaybackRequest => a.at_ms + 33 ≤ b.at_ms) l)
    (hw : ∀ r ∈ l, w ≤ r.at_ms ∧ r.at_ms < w + 33) : l.length ≤ 1 := by
  match l, hp, hw with
  | [], _, _ => simp
  | [_], _, _ => simp
  | a :: b :: _, hp, hw =>
    exfalso
    have hab : a.at_ms + 33 ≤ b.at_ms := by
      have := (List.pairwise_cons.1 hp).1 b (by simp)
      exact this
    have ha := hw a (by simp)
    have hb := hw b (by simp)
    omega

theorem spaced_span_le_two (l : List PlaybackRequest) (lo : Int)
    (hp : List.Pairwise (fun a b : PlaybackRequest => a.at_ms + 33 ≤ b.at_ms) l)
    (hw : ∀ r ∈ l, lo ≤ r.at_ms ∧ r.at_ms ≤ lo + 50) : l.length ≤ 2 := by
  match l, hp, hw with
  | [], _, _ => simp
  | [_], _, _ => simp
  | [_, _], _, _ => simp
  | a :: b :: c :: _, hp, hw =>
    exfalso
    have hab : a.at_ms + 33 ≤ b.at_ms := (List.pairwise_cons.1 hp).1 b (by simp)
    have hbc : b.at_ms + 33 ≤ c.at_ms :=
      (List.pairwise_cons.1 (List.pairwise_cons.1 hp).2).1 c (by simp)
    have ha := hw a (by simp)
    have hc := hw c (by simp)
    omega

theorem now_ms_bound (a : Int) (ha : -(2 : Int) ^ 63 ≤ a ∧ a < (2 : Int) ^ 63) :
    -(2 : Int) ^ 62 ≤ now_ms a ∧ now_ms a < (2 : Int) ^ 62 := by
  unfold now_ms
  norm_num at ha ⊢
  rcases le_or_lt 0 a with h | h
  · rw [Int.tdiv_eq_ediv h (by norm_num)]
    omega
  · have hneg : a = -(-a) := by omega
    rw [hneg, Int.neg_tdiv, Int.tdiv_eq_ediv (by omega) (by norm_num)]
    omega

theorem sfx_elapsed_in_int64 (a b : Int)
    (ha : -(2 : Int) ^ 63 ≤ a ∧ a < (2 : Int) ^ 63)
    (hb : -(2 : Int) ^ 63 ≤ b ∧ b < (2 : Int) ^ 63) :
    -(2 : Int) ^ 63 ≤ now_ms a - now_ms b ∧ now_ms a - now_ms b < (2 : Int) ^ 63 := by
  have h1 := now_ms_bound a ha
  have h2 := now_ms_bound b hb
  norm_num at h1 h2 ⊢
  omega

theorem sfx_step_core_congr (pcm_size : Nat) (s1 s2 : SfxState) (i1 i2 : SfxInput)
    (hs : s1.core = s2.core) (hi : i1.signal = i2.signal) :
    (card_flip_sfx_step pcm_size s1 i1).2 = (card_flip_sfx_step pcm_size s2 i2).2 ∧
      (card_flip_sfx_step pcm_size s1 i1).1.core =
        (card_flip_sfx_step pcm_size s2 i2).1.core := by
  simp only [SfxState.core, SfxInput.signal, Prod.mk.injEq] at hs hi
  obtain ⟨hl, ha⟩ := hs
  obtain ⟨hm, ht⟩ := hi
  unfold card_flip_sfx_step
  rw [hm, ht, hl]
  by_cases h0 : i2.msg = 0
  · simp [h0, SfxState.core, hl]
  · by_cases h1 : now_ms i2.time_us - s2.last_sfx_time ≥ MIN_SFX_INTERVAL_MS
    · simp [h0, h1, SfxState.core]
    · simp [h0, h1, SfxState.core, hl]

theorem sfx_task_core_congr (pcm_size : Nat) (in1 : List SfxInput) :
    ∀ (in2 : List SfxInput) (s1 s2 : SfxState), s1.core = s2.core →
      in1.map SfxInput.signal = in2.map SfxInput.signal →
      (card_flip_sfx_task pcm_size s1 in1).2 = (card_flip_sfx_task pcm_size s2 in2).2 ∧
        (card_flip_sfx_task pcm_size s1 in1).1.core =
          (card_flip_sfx_task pcm_size s2 in2).1.core := by
  induction in1 with
  | nil =>
    intro in2 s1 s2 hs hi
    cases in2 with
    | nil => simpa [card_flip_sfx_task] using hs
    | cons _ _ => simp at hi
  | cons i1 r1 ih =>
    intro in2 s1 s2 hs hi
    cases in2 with
    | nil => simp at hi
    | cons i2 r2 =>
      simp only [List.map_cons, List.cons.injEq] at hi
      obtain ⟨h1, h2⟩ := sfx_step_core_congr pcm_size s1 s2 i1 i2 hs hi.1
      obtain ⟨h3, h4⟩ := ih r2 _ _ h2 hi.2
      simp only [card_flip_sfx_task]
      rw [h1, h3]
      exact ⟨rfl, h4⟩

theorem flush_queue_eq (q : Queue) : flush_queue q = { q with items := [] } := by
  simp [flush_queue, flush_items_eq]

theorem xQueueSend_bounded (q : Queue) (m : Nat) (h : q.items.length ≤ q.uxLength) :
    (xQueueSend q m).2.uxLength = q.uxLength ∧
      (xQueueSend q m).2.items.length ≤ q.uxLength := by
  unfold xQueueSend
  split
  · simp; omega
  · simp [h]

theorem xQueueReceive_bounded (q : Queue) :
    (xQueueReceive q).2.uxLength = q.uxLength ∧
      (xQueueReceive q).2.items.length ≤ q.items.length := by
  unfold xQueueReceive
  split
  · simp
  · rename_i m rest h
    simp [h]

theorem sfx_dispatch_empty (pcm_size : Nat) (n : Nat) (task : SfxState)
    (played : List PlaybackRequest) (time_us : Int) (wr : I2sResult) :
    sfx_dispatch pcm_size ⟨some ⟨n, []⟩, task, played⟩ time_us wr =
      ⟨some ⟨n, []⟩, task, played⟩ := by
  simp [sfx_dispatch, xQueueReceive]

theorem sfx_run_receive_empty (pcm_size : Nat) (n : Nat) (task : SfxState)
    (played : List PlaybackRequest) (more : List (Int × I2sResult)) :
    sfx_run pcm_size ⟨some ⟨n, []⟩, task, played⟩
        (more.map (fun e => SfxOp.receive e.1 e.2)) =
      ⟨some ⟨n, []⟩, task, played⟩ := by
  induction more with
  | nil => simp [sfx_run]
  | cons e rest ih =>
    simp only [sfx_run, List.map_cons, List.foldl_cons, sfx_apply] at ih ⊢
    rw [sfx_dispatch_empty]
    exact ih

theorem sfx_apply_bounded (pcm_size : Nat) (w : SfxSystem) (op : SfxOp)
    (h : ∃ q, w.sfx_queue = some q ∧ q.uxLength = 8 ∧ q.items.length ≤ 8) :
    ∃ q, (sfx_apply pcm_size w op).sfx_queue = some q ∧ q.uxLength = 8 ∧
      q.items.length ≤ 8 := by
  obtain ⟨q, hq, hc, hl⟩ := h
  cases op with
  | start =>
    have := xQueueSend_bounded q SFX_TRIGGER (by omega)
    refine ⟨(xQueueSend q SFX_TRIGGER).2, ?_, ?_, ?_⟩
    · simp [sfx_apply, start_card_flip_sound_task, hq]
    · omega
    · omega
  | stop =>
    have := xQueueSend_bounded (flush_queue q) SFX_IDLE (by simp [flush_queue_eq])
    simp only [flush_queue_eq] at this
    refine ⟨(xQueueSend (flush_queue q) SFX_IDLE).2, ?_, ?_, ?_⟩
    · simp [sfx_apply, stop_card_flip_sound_task, hq]
    · simp only [flush_queue_eq]; omega
    · simp only [flush_queue_eq]; omega
  | receive t wr =>
    have hb := xQueueReceive_bounded q
    simp only [sfx_apply, sfx_dispatch, hq]
    cases hr : xQueueReceive q with
    | mk o q1 =>
      rw [hr] at hb
      cases o with
      | none => exact ⟨q, by simp [hq], hc, hl⟩
      | some m => exact ⟨q1, by simp, by simp at hb; omega, by simp at hb; omega⟩

theorem sfx_run_bounded (pcm_size : Nat) (ops : List SfxOp) :
    ∀ w : SfxSystem, (∃ q, w.sfx_queue = some q ∧ q.uxLength = 8 ∧ q.items.length ≤ 8) →
      ∃ q, (sfx_run pcm_size w ops).sfx_queue = some q ∧ q.uxLength = 8 ∧
        q.items.length ≤ 8 := by
  induction ops with
  | nil => intro w h; simpa [sfx_run] using h
  | cons op rest ih =>
    intro w h
    have := ih (sfx_apply pcm_size w op) (sfx_apply_bounded pcm_size w op h)
    simpa [sfx_run] using this

/-! ## Sound dispatcher: the claims -/

/-- C1. Rate limit of `card_flip_sfx_task`. From the initial state (last-played
timestamp 0), for every sequence of received signals and clock readings (no
monotonicity of the clock is even needed): any two audio writes are made at readings at
least 33 ms apart, later minus earlier; no window of 33 ms contains two audio writes;
and when all readings of the run lie within a span of 50 ms, at most 2 audio writes are
made (ten Triggers within 50 ms being one such run). -/
theorem sfx_rate_limit (pcm_size : Nat) (inputs : List SfxInput) :
    List.Pairwise (fun a b : PlaybackRequest => a.at_ms + 33 ≤ b.at_ms)
        (card_flip_sfx_task pcm_size sfx_init inputs).2 ∧
      (∀ w : Int,
        ((card_flip_sfx_task pcm_size sfx_init inputs).2.filter
          (fun r => decide (w ≤ r.at_ms ∧ r.at_ms < w + 33))).length ≤ 1) ∧
      (∀ lo : Int,
        (∀ i ∈ inputs, lo ≤ now_ms i.time_us ∧ now_ms i.time_us ≤ lo + 50) →
          (card_flip_sfx_task pcm_size sfx_init inputs).2.length ≤ 2) := by
  have hp := (sfx_task_played_spaced pcm_size inputs sfx_init).1
  refine ⟨hp, ?_, ?_⟩
  · intro w
    apply spaced_window_le_one _ w (hp.sublist (List.filter_sublist _))
    intro r hr
    simpa using (List.mem_filter.1 hr).2
  · intro lo hspan
    apply spaced_span_le_two _ lo hp
    intro r hr
    obtain ⟨i, hi, hri⟩ := sfx_task_played_from_inputs pcm_size inputs sfx_init r hr
    rw [hri]
    exact hspan i hi

/-- C1, at a concrete run: ten Triggers received between 1000 ms and 1045 ms cause at
most two audio writes. -/
theorem sfx_rate_limit_witness :
    (∀ i ∈ ten_triggers, (1000 : Int) ≤ now_ms i.time_us ∧ now_ms i.time_us ≤ 1000 + 50) ∧
      ten_triggers.length = 10 ∧
      (card_flip_sfx_task 4096 sfx_init ten_triggers).2.length ≤ 2 :=
  ⟨by decide, by decide, (sfx_rate_limit 4096 ten_triggers).2.2 1000 (by decide)⟩

/-- C2. Loop body of `card_flip_sfx_task` on a Trigger, for every state and clock
reading: when `now - last_sfx_time >= 33` exactly one audio write is made (the card
clip, its size, timeout 200 ms) and the timestamp becomes `now`; otherwise no audio
write is made and the timestamp is unchanged; in both cases the mode afterwards is
Active, whatever it was. -/
theorem sfx_step_trigger (pcm_size : Nat) (s : SfxState) (time_us : Int) (wr : I2sResult) :
    (card_flip_sfx_step pcm_size s ⟨SFX_TRIGGER, time_us, wr⟩).2 =
        (if now_ms time_us - s.last_sfx_time ≥ 33 then
          [{ at_ms := now_ms time_us, clip := AudioClip.card_pcm, size := pcm_size,
             timeout_ms := 200 }]
         else []) ∧
      (card_flip_sfx_step pcm_size s ⟨SFX_TRIGGER, time_us, wr⟩).1.last_sfx_time =
        (if now_ms time_us - s.last_sfx_time ≥ 33 then now_ms time_us
         else s.last_sfx_time) ∧
      (card_flip_sfx_step pcm_size s ⟨SFX_TRIGGER, time_us, wr⟩).1.active = true := by
  by_cases h : now_ms time_us - s.last_sfx_time ≥ 33
  · simp [card_flip_sfx_step, SFX_TRIGGER, MIN_SFX_INTERVAL_MS, SFX_WRITE_TIMEOUT_MS, h]
  · simp [card_flip_sfx_step, SFX_TRIGGER, MIN_SFX_INTERVAL_MS, h]

/-- C3. `stop_card_flip_sound_task` flushes what is queued: whatever the created queue
holds and whatever the dispatcher state, afterwards the queue holds exactly one
signal, Idle; the dispatcher consuming the queue from there (one reception, then any
number of further attempts) makes no audio write, ends in mode Idle with its timestamp
untouched, and leaves the queue empty. In particular a Trigger enqueued by
`start_card_flip_sound_task` right before the stop is discarded in the same way. -/
theorem stop_flushes_queue (pcm_size : Nat) (items : List Nat) (s : SfxState)
    (played : List PlaybackRequest) (time_us : Int) (wr : I2sResult)
    (more : List (Int × I2sResult)) :
    stop_card_flip_sound_task (some ⟨8, items⟩) = some ⟨8, [SFX_IDLE]⟩ ∧
      sfx_run pcm_size ⟨stop_card_flip_sound_task (some ⟨8, items⟩), s, played⟩
          (SfxOp.receive time_us wr :: more.map (fun e => SfxOp.receive e.1 e.2)) =
        ⟨some ⟨8, []⟩, { s with active := false }, played⟩ ∧
      sfx_run pcm_size ⟨some ⟨8, items⟩, s, played⟩
          (SfxOp.start :: SfxOp.stop :: SfxOp.receive time_us wr ::
            more.map (fun e => SfxOp.receive e.1 e.2)) =
        ⟨some ⟨8, []⟩, { s with active := false }, played⟩ := by
  have hstop : ∀ l : List Nat,
      stop_card_flip_sound_task (some ⟨8, l⟩) = some ⟨8, [SFX_IDLE]⟩ := by
    intro l
    simp [stop_card_flip_sound_task, flush_queue_eq, xQueueSend]
  have hrecv : sfx_run pcm_size ⟨some ⟨8, [SFX_IDLE]⟩, s, played⟩
      (SfxOp.receive time_us wr :: more.map (fun e => SfxOp.receive e.1 e.2)) =
        ⟨some ⟨8, []⟩, { s with active := false }, played⟩ := by
    have h1 : sfx_apply pcm_size ⟨some ⟨8, [SFX_IDLE]⟩, s, played⟩
        (SfxOp.receive time_us wr) = ⟨some ⟨8, []⟩, { s with active := false }, played⟩ := by
      simp [sfx_apply, sfx_dispatch, xQueueReceive, SFX_IDLE, card_flip_sfx_step]
    have h2 := sfx_run_receive_empty pcm_size 8 { s with active := false } played more
    simp only [sfx_run, List.foldl_cons] at h2 ⊢
    rw [h1]
    exact h2
  refine ⟨hstop items, ?_, ?_⟩
  · rw [hstop]
    exact hrecv
  · have h3 : sfx_apply pcm_size
        (sfx_apply pcm_size ⟨some ⟨8, items⟩, s, played⟩ SfxOp.start) SfxOp.stop =
          ⟨some ⟨8, [SFX_IDLE]⟩, s, played⟩ := by
      by_cases hl : items.length < 8
      · simp [sfx_apply, start_card_flip_sound_task, xQueueSend, hl, hstop]
      · simp [sfx_apply, start_card_flip_sound_task, xQueueSend, hl, hstop]
    simp only [sfx_run, List.foldl_cons] at hrecv ⊢
    rw [h3]
    exact hrecv

/-- C4. Loop body of `card_flip_sfx_task` on an Idle signal, for every state and clock
reading: the mode becomes Idle, no audio write is made, and the last-played timestamp
(as well as the stored byte count) is unchanged. -/
theorem sfx_step_idle_frame (pcm_size : Nat) (s : SfxState) (time_us : Int)
    (wr : I2sResult) :
    (card_flip_sfx_step pcm_size s ⟨SFX_IDLE, time_us, wr⟩).1.active = false ∧
      (card_flip_sfx_step pcm_size s ⟨SFX_IDLE, time_us, wr⟩).2 = [] ∧
      (card_flip_sfx_step pcm_size s ⟨SFX_IDLE, time_us, wr⟩).1.last_sfx_time =
        s.last_sfx_time ∧
      (card_flip_sfx_step pcm_size s ⟨SFX_IDLE, time_us, wr⟩).1.bytes_written =
        s.bytes_written := by
  simp [card_flip_sfx_step, SFX_IDLE]

/-- C8. The sound signal queue is a bounded FIFO. After `start_sfx_task` has created
it, whatever sequence of `start_card_flip_sound_task`, `stop_card_flip_sound_task` and
dispatcher receptions follows, the queue exists, has capacity 8 and holds at most 8
signals. `start_card_flip_sound_task` returns at once: on a queue holding fewer than 8
signals it appends one Trigger at the tail, on a queue holding 8 it leaves the queue as
it is and the send reports failure. A reception takes the oldest signal, so what is
sent to the fresh queue is received in the order sent (the first 8 of them, the others
having been dropped). -/
theorem sfx_queue_bounded_fifo (pcm_size : Nat) (ops : List SfxOp) (items msgs : List Nat)
    (m : Nat) :
    (∃ q, (sfx_run pcm_size sfx_boot ops).sfx_queue = some q ∧ q.uxLength = 8 ∧
        q.items.length ≤ 8) ∧
      start_card_flip_sound_task (some ⟨8, items⟩) =
        some ⟨8, if items.length < 8 then items ++ [SFX_TRIGGER] else items⟩ ∧
      (xQueueSend ⟨8, items⟩ SFX_TRIGGER).1 = decide (items.length < 8) ∧
      xQueueReceive ⟨8, m :: items⟩ = (some m, ⟨8, items⟩) ∧
      receive_all (send_all (xQueueCreate 8) msgs) = msgs.take 8 := by
  refine ⟨?_, ?_, ?_, ?_, ?_⟩
  · apply sfx_run_bounded
    exact ⟨xQueueCreate 8, by simp [sfx_boot, start_sfx_task], by simp [xQueueCreate],
      by simp [xQueueCreate]⟩
  · by_cases hl : items.length < 8
    · simp [start_card_flip_sound_task, xQueueSend, hl]
    · simp [start_card_flip_sound_task, xQueueSend, hl]
  · by_cases hl : items.length < 8
    · simp [xQueueSend, hl]
    · simp [xQueueSend, hl]
  · simp [xQueueReceive]
  · rw [send_all_items]
    simp [receive_all, receive_items_eq, xQueueCreate]

/-- C9. The outcome of the audio write is neither retried on nor surfaced. One loop
iteration makes at most one audio write; and two runs of the dispatcher that receive
the same signals at the same clock readings, from states with the same timestamp and
mode, make the same audio writes and end with the same timestamp and mode, whatever
status and byte count each audio write returned in either run. -/
theorem sfx_write_outcome_ignored (pcm_size : Nat) (s1 s2 : SfxState)
    (in1 in2 : List SfxInput) (hs : s1.core = s2.core)
    (hi : in1.map SfxInput.signal = in2.map SfxInput.signal) :
    (∀ (s : SfxState) (i : SfxInput), (card_flip_sfx_step pcm_size s i).2.length ≤ 1) ∧
      (card_flip_sfx_task pcm_size s1 in1).2 = (card_flip_sfx_task pcm_size s2 in2).2 ∧
      (card_flip_sfx_task pcm_size s1 in1).1.core =
        (card_flip_sfx_task pcm_size s2 in2).1.core :=
  ⟨sfx_step_played_le_one pcm_size, sfx_task_core_congr pcm_size in1 in2 s1 s2 hs hi⟩

/-- C9, at a concrete Trigger: the audio write succeeding or failing, the dispatcher
makes the same single write and ends with the same timestamp and mode. -/
theorem sfx_write_outcome_ignored_witness :
    sfx_init.core = sfx_init.core ∧
      [trigger_write_ok].map SfxInput.signal = [trigger_write_failed].map SfxInput.signal ∧
      trigger_write_ok.wr ≠ trigger_write_failed.wr ∧
      (card_flip_sfx_task 4096 sfx_init [trigger_write_ok]).2 =
        (card_flip_sfx_task 4096 sfx_init [trigger_write_failed]).2 ∧
      (card_flip_sfx_task 4096 sfx_init [trigger_write_ok]).1.core =
        (card_flip_sfx_task 4096 sfx_init [trigger_write_failed]).1.core :=
  ⟨rfl, by decide, by decide,
    (sfx_write_outcome_ignored 4096 sfx_init sfx_init [trigger_write_ok]
      [trigger_write_failed] rfl (by decide)).2⟩

/-! ## Basic facts on the data handler -/

theorem decode_loop_eq (data : List Nat) (remaining : Nat) :
    ∀ (i : Nat) (acc : List Nat), i + remaining ≤ data.length →
      decode_loop data remaining i acc = acc ++ (data.drop i).take remaining := by
  induction remaining with
  | zero => intro i acc _; simp [decode_loop]
  | succ n ih =>
    intro i acc h
    have hi : i < data.length := by omega
    rw [decode_loop, ih (i + 1) _ (by omega)]
    rw [List.drop_eq_getElem_cons hi, List.getD_eq_getElem _ _ hi, List.take_succ_cons]
    simp

theorem decode_text_eq_take (data : List Nat) (len : Nat) (h : len ≤ data.length) :
    decode_text data len = data.take len := by
  unfold decode_text
  rw [decode_loop_eq data len 0 [] (by omega)]
  simp

theorem decode_text_full (data : List Nat) : decode_text data data.length = data := by
  rw [decode_text_eq_take data data.length (le_refl _)]
  simp

theorem wait_animation_eq (k : Nat) (rest : List Bool) :
    wait_animation (List.replicate k true ++ false :: rest) = some (wait_events k) := by
  induction k with
  | zero => simp [wait_animation, wait_events]
  | succ n ih => simp [List.replicate_succ, wait_animation, wait_events, ih]

theorem animated_append (a b : List Event) : animated (a ++ b) = animated a ++ animated b := by
  induction a with
  | nil => simp [animated]
  | cons e rest ih => cases e <;> simp [animated, ih]

theorem lock_count_append (a b : List Event) :
    lock_count (a ++ b) = lock_count a + lock_count b := by
  induction a with
  | nil => simp [lock_count]
  | cons e rest ih =>
    cases e <;> simp [lock_count, ih]
    omega

theorem delays_append (a b : List Event) : delays (a ++ b) = delays a ++ delays b := by
  induction a with
  | nil => simp [delays]
  | cons e rest ih => cases e <;> simp [delays, ih]

theorem wait_events_facts (k : Nat) :
    delays (wait_events k) = List.replicate k 100 ∧ animated (wait_events k) = [] ∧
      lock_count (wait_events k) = 0 := by
  induction k with
  | zero => simp [wait_events, delays, animated, lock_count]
  | succ n ih =>
    obtain ⟨h1, h2, h3⟩ := ih
    simp [wait_events, delays, animated, lock_count, h1, h2, h3, List.replicate_succ]

theorem on_data_received_eq (st : AppState) (data : List Nat) (len k : Nat)
    (rest : List Bool) :
    on_data_received st data len (List.replicate k true ++ false :: rest) =
      some { target_text := decode_text data len,
             display_lock := st.display_lock,
             events := st.events ++ [Event.log_received (decode_text data len) len] ++
               wait_events k ++
               [Event.bsp_display_lock 0,
                Event.process_text_and_animate (decode_text data len),
                Event.bsp_display_unlock] } := by
  simp [on_data_received, wait_animation_eq, on_data_received_animate,
    on_data_received_store]

/-- Were two calls of the handler to overlap (A stored, then B stored while the first
call still waits), both calls would animate the text stored last: the engine is called
twice with B. -/
theorem overlapping_submissions_animate_last (st : AppState) (A B : List Nat) :
    animated (on_data_received_animate (on_data_received_animate
        (on_data_received_store (on_data_received_store st A A.length) B B.length))).events =
      animated st.events ++ [B, B] := by
  simp [on_data_received_animate, on_data_received_store, animated_append, animated,
    decode_text_full]

/-- Two calls made one after the other: when the call for A has returned before the call
for B starts, the engine is called with A and then with B, the call with B coming after
a poll that read `false`, and `target_text` ends as B. -/
theorem submissions_animate_in_order (st : AppState) (A B : List Nat) (k1 k2 : Nat)
    (rest1 rest2 : List Bool) :
    ∃ st1 st2 : AppState,
      on_data_received st A A.length (List.replicate k1 true ++ false :: rest1) = some st1 ∧
        on_data_received st1 B B.length (List.replicate k2 true ++ false :: rest2) =
          some st2 ∧
        animated st2.events = animated st.events ++ [A, B] ∧
        st2.events = st1.events ++ [Event.log_received B B.length] ++ wait_events k2 ++
          [Event.bsp_display_lock 0, Event.process_text_and_animate B,
            Event.bsp_display_unlock] ∧
        st1.target_text = A ∧ st2.target_text = B := by
  refine ⟨_, _, on_data_received_eq st A A.length k1 rest1,
    on_data_received_eq _ B B.length k2 rest2, ?_, ?_, ?_, ?_⟩
  · simp [animated_append, animated, decode_text_full, (wait_events_facts _).2.1]
  · simp [decode_text_full]
  · simp [decode_text_full]
  · simp [decode_text_full]

/-! ## Basic facts on overlapping calls -/

theorem wait_events_eq_busy (k : Nat) :
    wait_events k = busy_events k ++ [Event.is_animation_running false] := by
  induction k with
  | zero => rfl
  | succ n ih => simp [wait_events, busy_events, ih]

theorem two_calls_run_append (w : TwoCalls) (a b : List Turn) :
    two_calls_run w (a ++ b) = two_calls_run (two_calls_run w a) b := by
  simp [two_calls_run, List.foldl_append]

theorem two_calls_run_cons (w : TwoCalls) (t : Turn) (l : List Turn) :
    two_calls_run w (t :: l) = two_calls_run (two_calls_step w t) l := rfl

theorem run_first_busy (k : Nat) :
    ∀ w : TwoCalls, w.first.pc = HandlerPc.waiting →
      two_calls_run w (List.replicate k ⟨Caller.first, true⟩) =
        { w with app := { w.app with events := w.app.events ++ busy_events k } } := by
  induction k with
  | zero => intro w _; simp [two_calls_run, busy_events]
  | succ n ih =>
    intro w h
    rw [List.replicate_succ, two_calls_run_cons]
    have hs : two_calls_step w ⟨Caller.first, true⟩ =
        { w with app := { w.app with events := w.app.events ++
            [Event.is_animation_running true, Event.vTaskDelay 100] } } := by
      simp [two_calls_step, handler_step, h]
    have hn := ih (two_calls_step w ⟨Caller.first, true⟩) (by rw [hs]; exact h)
    rw [hn, hs]
    simp [busy_events]

/-- A call stepped alone, through polls reading `true` `k` times and then `false`, does
what the function `on_data_received` does. -/
theorem handler_steps_agree (st : AppState) (data : List Nat) (len k : Nat)
    (rest : List Bool) (other : HandlerCall) :
    on_data_received st data len (List.replicate k true ++ false :: rest) =
      some (two_calls_run ⟨st, ⟨data, len, HandlerPc.entry⟩, other⟩
        ((⟨Caller.first, true⟩ :: List.replicate k ⟨Caller.first, true⟩) ++
          [⟨Caller.first, false⟩, ⟨Caller.first, false⟩])).app := by
  rw [on_data_received_eq, List.cons_append, two_calls_run_cons, two_calls_run_append,
    run_first_busy k _ (by simp [two_calls_step, handler_step])]
  simp [two_calls_run, two_calls_step, handler_step, on_data_received_store,
    on_data_received_animate, wait_events_eq_busy]

/-- C5. Submit sequence of `on_data_received`. For every text (the received bytes, empty
or not) and every `k`, when `is_animation_running()` reads `true` on the first `k`
polls and `false` on the next one, the handler returns, having made exactly these
calls, in this order: the log line, then `k` times a poll reading `true` followed by a
sleep of 100 ms, then the poll reading `false`, then `bsp_display_lock(0)`, then
`process_text_and_animate` once with the received text, then `bsp_display_unlock()`.
So it sleeps exactly `k` times, calls the engine only after the poll that read
`false` and under the lock, and holds the lock no more on return than on entry. With
`k = 0` and the text "HELLO" the calls are: log, one poll, lock, engine with "HELLO",
unlock, and no sleep. -/
theorem on_data_received_submit (st : AppState) (data : List Nat) (len k : Nat)
    (rest : List Bool) :
    on_data_received st data len (List.replicate k true ++ false :: rest) =
        some { target_text := decode_text data len,
               display_lock := st.display_lock,
               events := st.events ++ [Event.log_received (decode_text data len) len] ++
                 wait_events k ++
                 [Event.bsp_display_lock 0,
                  Event.process_text_and_animate (decode_text data len),
                  Event.bsp_display_unlock] } ∧
      delays (wait_events k) = List.replicate k 100 ∧
      animated (wait_events k) = [] ∧
      lock_count (wait_events k) = 0 ∧
      on_data_received { st with events := [] } hello 5 [false] =
        some { target_text := hello,
               display_lock := st.display_lock,
               events := [Event.log_received hello 5, Event.is_animation_running false,
                 Event.bsp_display_lock 0, Event.process_text_and_animate hello,
                 Event.bsp_display_unlock] } :=
  ⟨on_data_received_eq st data len k rest, (wait_events_facts k).1,
    (wait_events_facts k).2.1, (wait_events_facts k).2.2, rfl⟩

/-- C7, where the code departs from it. `on_data_received` called with length 0 does not
return early: it overwrites `target_text` with the empty text, waits, takes the display
lock and calls `process_text_and_animate` with the empty text. The start-up path
`ui_gridboard_animation_start`, by contrast, only logs when `target_text` is empty: it
creates no timer, takes no lock and does not call the engine. -/
theorem on_data_received_empty_not_skipped (st : AppState) (data : List Nat) (k : Nat)
    (rest : List Bool) :
    on_data_received st data 0 (List.replicate k true ++ false :: rest) =
        some { target_text := [],
               display_lock := st.display_lock,
               events := st.events ++ [Event.log_received [] 0] ++ wait_events k ++
                 [Event.bsp_display_lock 0, Event.process_text_and_animate [],
                  Event.bsp_display_unlock] } ∧
      ui_gridboard_animation_start { st with target_text := [] } =
        { st with target_text := [],
                  events := st.events ++
                    [Event.set_sound_callback, Event.board_init, Event.log_target_empty] } := by
  refine ⟨?_, ?_⟩
  · have := on_data_received_eq st data 0 k rest
    simpa [decode_text, decode_loop] using this
  · simp [ui_gridboard_animation_start]

/-- C10. Byte decoding in `on_data_received`, for every buffer `data` read over its
whole length: the text built has the length of the buffer and the same byte at every
position (zero bytes included), that is, it is the buffer; once the wait loop ends,
the handler has overwritten `target_text` with that text and has called
`process_text_and_animate` with it, once. -/
theorem on_data_received_decodes (st : AppState) (data : List Nat) (k : Nat)
    (rest : List Bool) :
    (decode_text data data.length).length = data.length ∧
      (∀ i, i < data.length → (decode_text data data.length)[i]? = data[i]?) ∧
      decode_text data data.length = data ∧
      ∃ st1 : AppState,
        on_data_received st data data.length (List.replicate k true ++ false :: rest) =
          some st1 ∧
        st1.target_text = data ∧
        animated st1.events = animated st.events ++ [data] := by
  refine ⟨by rw [decode_text_full], fun i _ => by rw [decode_text_full],
    decode_text_full data, _, on_data_received_eq st data data.length k rest, ?_, ?_⟩
  · simp [decode_text_full]
  · simp [animated_append, animated, decode_text_full, (wait_events_facts _).2.1]

end GridBoard
